import Mathlib

/-!
Verification of the sum_pipe tar-stream checksummer (src/sum_pipe.py).

Modelling conventions:
* Byte streams are `List Nat` (each element one byte value).
* Hash algorithms (hashlib) are external; a digest algorithm is modelled as a
  parameter `H : List Nat → List Nat` mapping the accumulated input bytes to
  the ASCII bytes of its hex digest.  An executable SHA-256 (`sha256hex`) is
  also defined from the FIPS 180-4 description so that end-to-end statements
  can use the concrete algorithm the program defaults to.
* Python's tarfile stream reader (mode r|, ignore_zeros=True) is embedded at
  the byte level: `frombuf` models TarInfo.frombuf, `tfNextRaw` models
  TarFile.next with ignore_zeros=True, and `processLoop`/`ProcessTarPipe`
  model ProcessTarPipe of src/sum_pipe.py.  The model covers the header
  fields the program's behaviour depends on (name, size, checksum, typeflag,
  prefix); pax/GNU-longname/sparse extension headers (typeflags 75, 76, 83,
  103, 120) and base-256 negative numbers are outside the modelled subset
  and are excluded from well-formed archives below.  Checksum verification
  models the unsigned variant of calc_chksums.
-/

/-- Decimal ASCII digits of a natural number, fuel-driven so that it reduces
in the kernel.  Models Python's '%s' formatting of an int. -/
def decBytesAux : Nat → Nat → List Nat → List Nat
  | 0, _, acc => acc
  | fuel + 1, n, acc =>
    if n < 10 then (n + 48) :: acc
    else decBytesAux fuel (n / 10) ((n % 10 + 48) :: acc)

/-- Decimal ASCII bytes of a natural number. -/
def decBytes (n : Nat) : List Nat :=
  decBytesAux (n + 1) n []

/-- The `w` ASCII octal digits of `n % 8^w`, most significant first.
Models the digit part of tarfile's itn octal encoding. -/
def octalBytes : Nat → Nat → List Nat
  | 0, _ => []
  | w + 1, n => (n / 8 ^ w % 8 + 48) :: octalBytes w n

/-- Parse ASCII octal digits, failing on any non-digit byte.
Models int(s, 8) on a string of octal digits. -/
def parseOctalDigits : Nat → List Nat → Option Nat
  | acc, [] => some acc
  | acc, b :: bs =>
    if 48 ≤ b ∧ b ≤ 55 then parseOctalDigits (acc * 8 + (b - 48)) bs else none

/-- Drop leading space bytes. -/
def dropLeading32 : List Nat → List Nat
  | [] => []
  | b :: t => if b = 32 then dropLeading32 t else b :: t

/-- Strip leading and trailing space bytes; models str.strip() on the
space-padded numeric fields of a tar header. -/
def stripSpaces (l : List Nat) : List Nat :=
  (dropLeading32 ((dropLeading32 l).reverse)).reverse

/-- Truncate at the first NUL byte; models tarfile's nts. -/
def nts : List Nat → List Nat
  | [] => []
  | b :: t => if b = 0 then [] else b :: nts t

/-- Big-endian base-256 value of a byte list (tarfile's positive
base-256 number format). -/
def base256 (l : List Nat) : Nat :=
  l.foldl (fun n b => n * 256 + b) 0

/-- Numeric tar header field; models tarfile's nti.  A leading byte 0o200
introduces a positive base-256 number; 0o377 (negative base-256) is outside
the modelled subset and is mapped to a parse failure. -/
def nti (field : List Nat) : Option Nat :=
  match field with
  | [] => some 0
  | b :: rest =>
    if b = 128 then some (base256 rest)
    else if b = 255 then none
    else
      let t := stripSpaces (nts field)
      if t = [] then some 0 else parseOctalDigits 0 t

/-- Member descriptor decoded from one tar header block (the fields of
tarfile.TarInfo that sum_pipe.py uses). -/
structure TarInfo where
  name : List Nat
  size : Nat
  typeflag : Nat
deriving DecidableEq

/-- Typeflags Python's TarInfo.isreg accepts as regular files in the modelled
subset: REGTYPE 48, AREGTYPE 0, CONTTYPE 55. -/
def regularFlag (f : Nat) : Bool :=
  f == 48 || f == 0 || f == 55

/-- Models TarInfo.isreg (restricted to the modelled typeflags). -/
def TarInfo.isreg (ti : TarInfo) : Bool :=
  regularFlag ti.typeflag

/-- Incremental hash accumulator: the state is the byte sequence fed so far.
Models a hashlib hash object. -/
structure HashState where
  fed : List Nat
deriving DecidableEq

/-- Models hash.update: append a chunk to the accumulated input. -/
def HashState.update (h : HashState) (c : List Nat) : HashState :=
  ⟨h.fed ++ c⟩

/-- Models hash.hexdigest for the digest algorithm `H`. -/
def HashState.hexdigest (H : List Nat → List Nat) (h : HashState) : List Nat :=
  H h.fed

/-- The read loop of GetTriageLine (src/sum_pipe.py lines 47-49):
while the chunk `c` is nonempty, feed it to the full-content hash and read
the next chunk of at most 65535 bytes from the remaining payload `rest`. -/
def triageLoop (full_hash : HashState) (c : List Nat) (rest : List Nat) : HashState :=
  if c = [] then full_hash
  else triageLoop (full_hash.update c) (rest.take 65535) (rest.drop 65535)
termination_by rest.length + c.length
decreasing_by
  simp_all [List.length_take, List.length_drop]
  cases c with
  | nil => simp_all
  | cons a t => simp; omega

/-- Models GetTriageLine (src/sum_pipe.py lines 28-53): a first-chunk read of
512 bytes feeds the first hash, the loop feeds every chunk to the full hash,
then the four fields are joined by tabs (byte 9): decimal size, first-chunk
hex digest, full hex digest, name. -/
def GetTriageLine (H : List Nat → List Nat) (tarinfo : TarInfo) (payload : List Nat) : List Nat :=
  let c := payload.take 512
  let first_hash := HashState.update ⟨[]⟩ c
  let full_hash := triageLoop ⟨[]⟩ c (payload.drop 512)
  decBytes tarinfo.size ++ 9 :: first_hash.hexdigest H
    ++ 9 :: full_hash.hexdigest H ++ 9 :: tarinfo.name

/-- Drop leading slash bytes; helper for the rstrip of slashes applied to
directory names in TarInfo.frombuf. -/
def dropLeading47 : List Nat → List Nat
  | [] => []
  | b :: t => if b = 47 then dropLeading47 t else b :: t

/-- Remove trailing slash bytes; models str.rstrip of slashes applied to
directory names in TarInfo.frombuf. -/
def dropTrailingSlashes (l : List Nat) : List Nat :=
  (dropLeading47 l.reverse).reverse

/-- Unsigned header checksum: the 512 header bytes summed with the checksum
field (bytes 148-155) replaced by eight spaces.  Models the unsigned result
of tarfile's calc_chksums. -/
def calcChksum (buf : List Nat) : Nat :=
  (buf.take 148).sum + 256 + (buf.drop 156).sum

/-- Outcome of decoding one header block, mirroring the exceptions of
TarInfo.frombuf. -/
inductive HeaderResult where
  | empty
  | truncated
  | eofHeader
  | invalid
  | ok (ti : TarInfo)
deriving DecidableEq

/-- Models TarInfo.frombuf: length checks, the all-zero end-of-archive
sentinel, checksum verification, then field decoding (name from bytes 0-99,
size from 124-135, typeflag byte 156, ustar prefix from 345-499), including
the old-V7 trailing-slash directory rule and directory-name slash
stripping. -/
def frombuf (buf : List Nat) : HeaderResult :=
  if buf.length = 0 then .empty
  else if buf.length ≠ 512 then .truncated
  else if buf.all (· = 0) then .eofHeader
  else
    match nti ((buf.drop 148).take 8) with
    | none => .invalid
    | some chksum =>
      if chksum = calcChksum buf then
        match nti ((buf.drop 124).take 12) with
        | none => .invalid
        | some size =>
          let name0 := nts (buf.take 100)
          let flag0 := (buf.drop 156).headD 0
          let flag1 := if flag0 = 0 ∧ name0.getLast? = some 47 then 53 else flag0
          let name1 := if flag1 = 53 then dropTrailingSlashes name0 else name0
          let pfx := nts ((buf.drop 345).take 155)
          let name2 :=
            if pfx ≠ [] ∧ flag1 ∉ ([75, 76, 83] : List Nat) then pfx ++ 47 :: name1
            else name1
          .ok ⟨name2, size, flag1⟩
      else .invalid

/-- Typeflags in tarfile's SUPPORTED_TYPES (members whose data region the
reader does not need to skip unless they are regular files). -/
def supportedType (f : Nat) : Bool :=
  [48, 0, 49, 50, 51, 52, 53, 54, 55, 75, 76, 83].contains f

/-- The tarfile.ReadError raised for an empty or truncated stream start. -/
inductive TarErr where
  | readError
deriving DecidableEq

/-- The three counters of ProcessTarPipe (src/sum_pipe.py lines 83-85). -/
structure Counters where
  files_seen : Nat
  bytes_seen : Nat
  files_skipped : Nat
deriving DecidableEq

/-- Messages ProcessTarPipe writes to stderr (src/sum_pipe.py lines
104-109); the summary carries files_seen and bytes_seen (humanize
formatting is external presentation). -/
inductive Diag where
  | warnSkipped (n : Nat)
  | summary (files : Nat) (bytes : Nat)
deriving DecidableEq

/-- Models TarFile.next in stream mode with ignore_zeros=True: read one
header block; all-zero and invalid blocks are skipped and reading continues
at the next block; an empty or short read ends the member sequence, except
at stream offset 0 (`first` = true) where tarfile raises ReadError.  On a
decoded member it returns the member, the stream after the header (from
which the payload is read), and the stream after the member's data region
(rounded up to a block boundary) from which the next header is read. -/
def tfNextRaw (s : List Nat) (first : Bool) :
    Except TarErr (Option (TarInfo × List Nat × List Nat)) :=
  match h : frombuf (s.take 512) with
  | .empty => if first then .error .readError else .ok none
  | .truncated => if first then .error .readError else .ok none
  | .eofHeader => tfNextRaw (s.drop 512) false
  | .invalid => tfNextRaw (s.drop 512) false
  | .ok ti =>
    if ti.isreg || !supportedType ti.typeflag then
      .ok (some (ti, s.drop 512, (s.drop 512).drop (512 * ((ti.size + 511) / 512))))
    else
      .ok (some (ti, s.drop 512, s.drop 512))
termination_by s.length
decreasing_by
all_goals
  unfold frombuf at h
  split at h
  next => simp at h
  next hl0 =>
    split at h
    next => simp at h
    next hl1 =>
      clear h
      simp only [List.length_take] at hl0 hl1
      simp only [List.length_drop]
      omega

/-- Models the member loop of ProcessTarPipe (src/sum_pipe.py lines 87-102)
composed with tarfile's header reading (ignore_zeros=True): for each regular
member the triage line for its payload followed by the delimiter is written
to the record sink and files_seen/bytes_seen are updated; other members only
bump files_skipped.  Returns the list of write calls made to the record sink
and the final counters, or the tarfile ReadError for an empty or truncated
stream start. -/
def processLoop (H : List Nat → List Nat) (delim : List Nat) (s : List Nat)
    (first : Bool) (c : Counters) :
    Except TarErr (List (List Nat) × Counters) :=
  match h : frombuf (s.take 512) with
  | .empty => if first then .error .readError else .ok ([], c)
  | .truncated => if first then .error .readError else .ok ([], c)
  | .eofHeader => processLoop H delim (s.drop 512) false c
  | .invalid => processLoop H delim (s.drop 512) false c
  | .ok ti =>
    if ti.isreg then
      match processLoop H delim ((s.drop 512).drop (512 * ((ti.size + 511) / 512))) false
          ⟨c.files_seen + 1, c.bytes_seen + ti.size, c.files_skipped⟩ with
      | .error e => .error e
      | .ok r => .ok (GetTriageLine H ti ((s.drop 512).take ti.size) :: delim :: r.1, r.2)
    else
      processLoop H delim
        (if supportedType ti.typeflag then s.drop 512
         else (s.drop 512).drop (512 * ((ti.size + 511) / 512)))
        false ⟨c.files_seen, c.bytes_seen, c.files_skipped + 1⟩
termination_by s.length
decreasing_by
all_goals
  unfold frombuf at h
  split at h
  next => simp at h
  next hl0 =>
    split at h
    next => simp at h
    next hl1 =>
      clear h
      simp only [List.length_take] at hl0 hl1
      first
      | (split <;> simp only [List.length_drop] <;> omega)
      | (simp only [List.length_drop]; omega)

/-- Models ProcessTarPipe (src/sum_pipe.py lines 65-109): run the member
loop from stream start, then emit the skip warning (only when
files_skipped > 0) and the end-of-run summary on the diagnostics channel. -/
def ProcessTarPipe (H : List Nat → List Nat) (s : List Nat) (delim : List Nat) :
    Except TarErr (List (List Nat) × Counters × List Diag) :=
  match processLoop H delim s true ⟨0, 0, 0⟩ with
  | .error e => .error e
  | .ok (out, c) =>
    .ok (out, c,
      (if 0 < c.files_skipped then [Diag.warnSkipped c.files_skipped] else []) ++
        [Diag.summary c.files_seen c.bytes_seen])

/-- One archive member as the test archives are built: a name, a typeflag
and a payload (the declared size is the payload length). -/
structure Member where
  name : List Nat
  typeflag : Nat
  payload : List Nat
deriving DecidableEq

/-- The 100-byte name field: the name NUL-padded to 100 bytes. -/
def nameField (name : List Nat) : List Nat :=
  name ++ List.replicate (100 - name.length) 0

/-- The 12-byte size field: 11 octal digits and a NUL, as tarfile's itn
writes it. -/
def sizeField (size : Nat) : List Nat :=
  octalBytes 11 size ++ [0]

/-- The 8-byte checksum field: 6 octal digits, NUL, space. -/
def ckField (ck : Nat) : List Nat :=
  octalBytes 6 ck ++ [0, 32]

/-- Header bytes 0-147: name field, NUL mode/uid/gid fields, size field,
NUL mtime field. -/
def hdrHead (name : List Nat) (size : Nat) : List Nat :=
  nameField name ++ List.replicate 24 0 ++ sizeField size ++ List.replicate 12 0

/-- Header bytes 156-511: the typeflag byte followed by NUL linkname and
remaining fields. -/
def hdrTail (flag : Nat) : List Nat :=
  flag :: List.replicate 355 0

/-- A 512-byte header block with the given checksum-field value. -/
def mkHeaderCk (name : List Nat) (size flag ck : Nat) : List Nat :=
  hdrHead name size ++ ckField ck ++ hdrTail flag

/-- A complete 512-byte header block with a correct unsigned checksum. -/
def mkHeader (name : List Nat) (size : Nat) (flag : Nat) : List Nat :=
  mkHeaderCk name size flag ((hdrHead name size).sum + 256 + (hdrTail flag).sum)

/-- Pad a byte list with NULs up to the next multiple of 512 (a member's
data region). -/
def padTo512 (l : List Nat) : List Nat :=
  l ++ List.replicate ((512 - l.length % 512) % 512) 0

/-- The encoding of one member: its header block, followed by its padded
payload when the member kind carries data (regular files in the modelled
subset). -/
def encodeMember (m : Member) : List Nat :=
  mkHeader m.name m.payload.length m.typeflag ++
    (if regularFlag m.typeflag then padTo512 m.payload else [])

/-- A well-formed archive: the encoded members followed by the standard
two-zero-block end-of-archive marker. -/
def encodeArchive (ms : List Member) : List Nat :=
  (ms.map encodeMember).flatten ++ List.replicate 1024 0

/-- Well-formedness of one member for the modelled tar subset: the name fits
the 100-byte field, has no NUL bytes, is made of byte values and does not
end in a slash (so neither the V7 directory rule nor directory slash
stripping rewrites it); the size fits the 11-digit octal field; the
typeflag is one of the plain ustar kinds handled by _proc_builtin; and
non-regular kinds carry no payload. -/
def memberWF (m : Member) : Prop :=
  m.name.length ≤ 100 ∧
  (∀ b ∈ m.name, 0 < b ∧ b < 256) ∧
  m.name.getLast? ≠ some 47 ∧
  m.payload.length < 8 ^ 11 ∧
  m.typeflag ∈ ([0, 48, 49, 50, 51, 52, 53, 54, 55] : List Nat) ∧
  (regularFlag m.typeflag = false → m.payload = [])

instance (m : Member) : Decidable (memberWF m) := by
  unfold memberWF
  infer_instance

/-- Reference description (from the spec) of the record sink's write calls:
one triage record and one delimiter write per regular-file member, in
order. -/
def specRecords (H : List Nat → List Nat) (delim : List Nat) (ms : List Member) :
    List (List Nat) :=
  ((ms.filter (fun m => regularFlag m.typeflag)).map
    (fun m => [GetTriageLine H ⟨m.name, m.payload.length, m.typeflag⟩ m.payload, delim])).flatten

/-- Number of regular-file members. -/
def countReg (ms : List Member) : Nat :=
  (ms.filter (fun m => regularFlag m.typeflag)).length

/-- Sum of the regular-file members' declared sizes. -/
def sumReg (ms : List Member) : Nat :=
  ((ms.filter (fun m => regularFlag m.typeflag)).map (fun m => m.payload.length)).sum

/-- Number of non-regular members. -/
def countSkip (ms : List Member) : Nat :=
  (ms.filter (fun m => !regularFlag m.typeflag)).length

/-- Rotate a 32-bit word right by n positions (FIPS 180-4 ROTR). -/
def rotr (n x : Nat) : Nat :=
  ((x >>> n) ||| (x <<< (32 - n))) % 4294967296

/-- SHA-256 big sigma 0. -/
def bigS0 (x : Nat) : Nat := rotr 2 x ^^^ rotr 13 x ^^^ rotr 22 x

/-- SHA-256 big sigma 1. -/
def bigS1 (x : Nat) : Nat := rotr 6 x ^^^ rotr 11 x ^^^ rotr 25 x

/-- SHA-256 small sigma 0. -/
def smallS0 (x : Nat) : Nat := rotr 7 x ^^^ rotr 18 x ^^^ (x >>> 3)

/-- SHA-256 small sigma 1. -/
def smallS1 (x : Nat) : Nat := rotr 17 x ^^^ rotr 19 x ^^^ (x >>> 10)

/-- SHA-256 choice function. -/
def chF (e f g : Nat) : Nat := (e &&& f) ^^^ ((e ^^^ 4294967295) &&& g)

/-- SHA-256 majority function. -/
def majF (a b c : Nat) : Nat := (a &&& b) ^^^ (a &&& c) ^^^ (b &&& c)

/-- The 64 SHA-256 round constants. -/
def shaK : List Nat :=
  [1116352408, 1899447441, 3049323471, 3921009573, 961987163, 1508970993,
   2453635748, 2870763221, 3624381080, 310598401, 607225278, 1426881987,
   1925078388, 2162078206, 2614888103, 3248222580, 3835390401, 4022224774,
   264347078, 604807628, 770255983, 1249150122, 1555081692, 1996064986,
   2554220882, 2821834349, 2952996808, 3210313671, 3336571891, 3584528711,
   113926993, 338241895, 666307205, 773529912, 1294757372, 1396182291,
   1695183700, 1986661051, 2177026350, 2456956037, 2730485921, 2820302411,
   3259730800, 3345764771, 3516065817, 3600352804, 4094571909, 275423344,
   430227734, 506948616, 659060556, 883997877, 958139571, 1322822218,
   1537002063, 1747873779, 1955562222, 2024104815, 2227730452, 2361852424,
   2428436474, 2756734187, 3204031479, 3329325298]

/-- The SHA-256 initial hash value. -/
def shaH0 : List Nat :=
  [1779033703, 3144134277, 1013904242, 2773480762,
   1359893119, 2600822924, 528734635, 1541459225]

/-- Group bytes into big-endian 32-bit words. -/
def wordsBE : List Nat → List Nat
  | a :: b :: c :: d :: rest => (((a * 256 + b) * 256 + c) * 256 + d) :: wordsBE rest
  | _ => []

/-- Extend the 16-word message schedule by `k` further words. -/
def shaExtend : Nat → List Nat → List Nat
  | 0, w => w
  | k + 1, w =>
    let t := w.length
    shaExtend k (w ++ [(smallS1 (w.getD (t - 2) 0) + w.getD (t - 7) 0 +
      smallS0 (w.getD (t - 15) 0) + w.getD (t - 16) 0) % 4294967296])

/-- The 64-word message schedule of one block. -/
def shaSchedule (w16 : List Nat) : List Nat :=
  shaExtend 48 w16

/-- Working state of the SHA-256 compression rounds. -/
structure Sha8 where
  a : Nat
  b : Nat
  c : Nat
  d : Nat
  e : Nat
  f : Nat
  g : Nat
  h : Nat

/-- One SHA-256 compression round on a (round constant, schedule word)
pair. -/
def shaRound (st : Sha8) (kw : Nat × Nat) : Sha8 :=
  let t1 := (st.h + bigS1 st.e + chF st.e st.f st.g + kw.1 + kw.2) % 4294967296
  let t2 := (bigS0 st.a + majF st.a st.b st.c) % 4294967296
  ⟨(t1 + t2) % 4294967296, st.a, st.b, st.c, (st.d + t1) % 4294967296, st.e, st.f, st.g⟩

/-- Process one 64-byte block against the running hash value. -/
def shaBlock (hs : List Nat) (block : List Nat) : List Nat :=
  let w := shaSchedule (wordsBE block)
  let s0 : Sha8 := ⟨hs.getD 0 0, hs.getD 1 0, hs.getD 2 0, hs.getD 3 0,
                    hs.getD 4 0, hs.getD 5 0, hs.getD 6 0, hs.getD 7 0⟩
  let s := (shaK.zip w).foldl shaRound s0
  [(hs.getD 0 0 + s.a) % 4294967296, (hs.getD 1 0 + s.b) % 4294967296,
   (hs.getD 2 0 + s.c) % 4294967296, (hs.getD 3 0 + s.d) % 4294967296,
   (hs.getD 4 0 + s.e) % 4294967296, (hs.getD 5 0 + s.f) % 4294967296,
   (hs.getD 6 0 + s.g) % 4294967296, (hs.getD 7 0 + s.h) % 4294967296]

/-- Big-endian bytes of `n` in a field of `k` bytes. -/
def bytesBE : Nat → Nat → List Nat
  | 0, _ => []
  | k + 1, n => bytesBE k (n / 256) ++ [n % 256]

/-- SHA-256 padding: 0x80, zero fill, and the 64-bit big-endian bit
length, reaching a multiple of 64 bytes. -/
def shaPad (msg : List Nat) : List Nat :=
  msg ++ 128 :: List.replicate ((119 - msg.length % 64) % 64) 0 ++
    bytesBE 8 (8 * msg.length)

/-- Split into 64-byte blocks (fuel-driven). -/
def chunks64 : Nat → List Nat → List (List Nat)
  | 0, _ => []
  | _ + 1, [] => []
  | fuel + 1, l => l.take 64 :: chunks64 fuel (l.drop 64)

/-- The eight 32-bit words of the SHA-256 digest of a byte list. -/
def sha256words (msg : List Nat) : List Nat :=
  (chunks64 (msg.length + 2) (shaPad msg)).foldl shaBlock shaH0

/-- ASCII byte of one lowercase hex digit. -/
def hexDigit (n : Nat) : Nat :=
  if n < 10 then n + 48 else n + 87

/-- Eight ASCII hex digits of a 32-bit word. -/
def hexWord (w : Nat) : List Nat :=
  [hexDigit (w >>> 28 % 16), hexDigit (w >>> 24 % 16), hexDigit (w >>> 20 % 16),
   hexDigit (w >>> 16 % 16), hexDigit (w >>> 12 % 16), hexDigit (w >>> 8 % 16),
   hexDigit (w >>> 4 % 16), hexDigit (w % 16)]

/-- ASCII hex digest of the SHA-256 of a byte list; the concrete instance of
the digest parameter `H` that models hashlib.new with the program's default
algorithm. -/
def sha256hex (msg : List Nat) : List Nat :=
  ((sha256words msg).map hexWord).flatten

/-- Models IOTee.read (src/sum_pipe.py lines 116-119) over an abstract inner
transport: `readFn st n` returns the bytes the inner read yields and the
inner transport's next state.  The tee state pairs the inner state with the
bytes written to target_fd so far; a read forwards to the inner transport,
appends the returned bytes to target_fd, and returns them unchanged. -/
def teeRead {σ : Type} (readFn : σ → Nat → List Nat × σ) (t : σ × List Nat) (n : Nat) :
    List Nat × (σ × List Nat) :=
  let a := readFn t.1 n
  (a.1, (a.2, t.2 ++ a.1))

/-- A sequence of tee reads with the given request sizes, collecting the
returned chunks. -/
def teeReads {σ : Type} (readFn : σ → Nat → List Nat × σ) :
    σ × List Nat → List Nat → List (List Nat) × (σ × List Nat)
  | t, [] => ([], t)
  | t, n :: ns =>
    let r := teeRead readFn t n
    let rr := teeReads readFn r.2 ns
    (r.1 :: rr.1, rr.2)

/-- The same sequence of reads against the bare inner transport. -/
def innerReads {σ : Type} (readFn : σ → Nat → List Nat × σ) :
    σ → List Nat → List (List Nat) × σ
  | st, [] => ([], st)
  | st, n :: ns =>
    let a := readFn st n
    let rr := innerReads readFn a.2 ns
    (a.1 :: rr.1, rr.2)

/-- The command-line flags of sum_pipe.py that the output-file logic in Main
depends on. -/
structure Args where
  sink : Bool
  null : Bool
  overwrite_sum : Bool
  append : Bool
deriving DecidableEq

/-- The FileExistsError Main raises on a sink conflict. -/
inductive MainErr where
  | fileExists
deriving DecidableEq

/-- Record delimiter selection (src/sum_pipe.py lines 177-180). -/
def delimOf (null : Bool) : List Nat :=
  if null then [0] else [10]

/-- Models Main's output-file handling and run (src/sum_pipe.py lines
177-206) for a file output path: `file` is the existing content of the
output path (none when the path does not exist) and the result is the
content of the output path after the run.  When the path exists and neither
overwrite_sum nor append is set, FileExistsError is raised before the input
stream is touched; append mode opens with mode ab, otherwise mode wb
truncates.  The run itself is over a well-formed archive so ProcessTarPipe
returns its record writes, which the opened file receives. -/
def MainRunFile (H : List Nat → List Nat) (a : Args) (file : Option (List Nat))
    (input : List Nat) : Except MainErr (List Nat) :=
  let delim := delimOf a.null
  let written := fun (old : List Nat) =>
    match ProcessTarPipe H input delim with
    | .error _ => old
    | .ok r => old ++ r.1.flatten
  match file with
  | some content =>
    if ¬a.overwrite_sum ∧ ¬a.append then .error .fileExists
    else if a.append then .ok (written content)
    else .ok (written [])
  | none => .ok (written [])

/-- Two runs of the pipeline over the same input: the second run sees the
output file the first run left behind. -/
def MainRunTwice (H : List Nat → List Nat) (a : Args) (file : Option (List Nat))
    (input : List Nat) : Except MainErr (List Nat) :=
  match MainRunFile H a file input with
  | .error e => .error e
  | .ok c => MainRunFile H a (some c) input

theorem triageLoop_fed (full : HashState) (c rest : List Nat) :
    (triageLoop full c rest).fed =
      if c = [] then full.fed else full.fed ++ (c ++ rest) := by
  induction full, c, rest using triageLoop.induct with
  | case1 full rest =>
    rw [triageLoop]
    simp
  | case2 full c rest hc ih =>
    rw [triageLoop]
    simp only [hc, if_neg, ite_false]
    rw [ih]
    by_cases htk : rest.take 65535 = []
    · have hrest : rest = [] := by
        rcases List.take_eq_nil_iff.mp htk with h | h
        · omega
        · exact h
      simp [htk, hrest, HashState.update]
    · simp only [htk, if_neg, ite_false, HashState.update]
      rw [List.append_assoc, List.take_append_drop]

theorem getTriageLine_spec (H : List Nat → List Nat) (ti : TarInfo) (payload : List Nat) :
    GetTriageLine H ti payload =
      decBytes ti.size ++ 9 :: H (payload.take 512) ++ 9 :: H payload ++ 9 :: ti.name := by
  simp only [GetTriageLine, HashState.hexdigest, HashState.update]
  rw [triageLoop_fed]
  by_cases hp : payload = []
  · simp [hp]
  · have hc : payload.take 512 ≠ [] := by
      intro h
      rcases List.take_eq_nil_iff.mp h with h | h
      · omega
      · exact hp h
    simp only [hc, ite_false, List.nil_append]
    rw [List.take_append_drop]


theorem octalBytes_length (w n : Nat) : (octalBytes w n).length = w := by
  induction w generalizing n with
  | zero => rfl
  | succ w ih => simp [octalBytes, ih]

theorem octalBytes_bounds (w n : Nat) : ∀ b ∈ octalBytes w n, 48 ≤ b ∧ b ≤ 55 := by
  induction w generalizing n with
  | zero => simp [octalBytes]
  | succ w ih =>
    intro b hb
    rw [octalBytes] at hb
    rcases List.mem_cons.mp hb with h | h
    · have : n / 8 ^ w % 8 < 8 := Nat.mod_lt _ (by norm_num)
      omega
    · exact ih n b h

theorem octalBytes_ne_nil (w n : Nat) (hw : 0 < w) : octalBytes w n ≠ [] := by
  intro h
  have hl := octalBytes_length w n
  rw [h] at hl
  simp at hl
  omega

theorem modPow8Succ (w n : Nat) :
    n % 8 ^ (w + 1) = n / 8 ^ w % 8 * 8 ^ w + n % 8 ^ w := by
  have hb : 0 < 8 ^ w := Nat.pos_pow_of_pos w (by norm_num)
  have h1 : 8 ^ w * (n / 8 ^ w) + n % 8 ^ w = n := Nat.div_add_mod n (8 ^ w)
  have h2 : 8 * (n / 8 ^ w / 8) + n / 8 ^ w % 8 = n / 8 ^ w := Nat.div_add_mod (n / 8 ^ w) 8
  have h3 : n / 8 ^ w / 8 = n / (8 ^ w * 8) := Nat.div_div_eq_div_mul n (8 ^ w) 8
  have key : n = n / (8 ^ w * 8) * (8 ^ w * 8) + (n / 8 ^ w % 8 * 8 ^ w + n % 8 ^ w) := by
    calc n = 8 ^ w * (n / 8 ^ w) + n % 8 ^ w := h1.symm
      _ = 8 ^ w * (8 * (n / 8 ^ w / 8) + n / 8 ^ w % 8) + n % 8 ^ w := by rw [h2]
      _ = n / 8 ^ w / 8 * (8 ^ w * 8) + (n / 8 ^ w % 8 * 8 ^ w + n % 8 ^ w) := by ring
      _ = n / (8 ^ w * 8) * (8 ^ w * 8) + (n / 8 ^ w % 8 * 8 ^ w + n % 8 ^ w) := by rw [h3]
  have e1 : n / 8 ^ w % 8 < 8 := Nat.mod_lt _ (by norm_num)
  have e2 : n % 8 ^ w < 8 ^ w := Nat.mod_lt _ hb
  have hlt : n / 8 ^ w % 8 * 8 ^ w + n % 8 ^ w < 8 ^ w * 8 := by nlinarith
  calc n % 8 ^ (w + 1)
      = n % (8 ^ w * 8) := by rw [pow_succ]
    _ = (n / (8 ^ w * 8) * (8 ^ w * 8) + (n / 8 ^ w % 8 * 8 ^ w + n % 8 ^ w)) % (8 ^ w * 8) := by
          rw [← key]
    _ = ((8 ^ w * 8) * (n / (8 ^ w * 8)) + (n / 8 ^ w % 8 * 8 ^ w + n % 8 ^ w)) % (8 ^ w * 8) := by
          ring_nf
    _ = (n / 8 ^ w % 8 * 8 ^ w + n % 8 ^ w) % (8 ^ w * 8) := by
          rw [Nat.mul_add_mod]
    _ = n / 8 ^ w % 8 * 8 ^ w + n % 8 ^ w := Nat.mod_eq_of_lt hlt

theorem parseOctal_octalBytes (w : Nat) :
    ∀ acc n, parseOctalDigits acc (octalBytes w n) = some (acc * 8 ^ w + n % 8 ^ w) := by
  induction w with
  | zero => intro acc n; simp [octalBytes, parseOctalDigits, Nat.mod_one]
  | succ w ih =>
    intro acc n
    have hd : n / 8 ^ w % 8 < 8 := Nat.mod_lt _ (by norm_num)
    rw [octalBytes, parseOctalDigits]
    rw [if_pos (by omega)]
    rw [ih]
    congr 1
    have hsub : n / 8 ^ w % 8 + 48 - 48 = n / 8 ^ w % 8 := by omega
    rw [hsub, modPow8Succ]
    ring

theorem nts_all_ne_zero (l : List Nat) (h : ∀ b ∈ l, b ≠ 0) : nts l = l := by
  induction l with
  | nil => rfl
  | cons a t ih =>
    have ha : a ≠ 0 := h a (by simp)
    rw [nts, if_neg ha, ih (fun b hb => h b (by simp [hb]))]

theorem nts_append_zero (l r : List Nat) (h : ∀ b ∈ l, b ≠ 0) :
    nts (l ++ 0 :: r) = l := by
  induction l with
  | nil => rw [List.nil_append, nts, if_pos rfl]
  | cons a t ih =>
    have ha : a ≠ 0 := h a (by simp)
    rw [List.cons_append, nts, if_neg ha, ih (fun b hb => h b (by simp [hb]))]

theorem nts_replicate_zero (k : Nat) : nts (List.replicate k 0) = [] := by
  cases k with
  | zero => rfl
  | succ k => rw [List.replicate_succ, nts, if_pos rfl]

theorem dropLeading32_eq (l : List Nat) (h : ∀ b ∈ l, b ≠ 32) :
    dropLeading32 l = l := by
  cases l with
  | nil => rfl
  | cons a t => rw [dropLeading32, if_neg (h a (by simp))]

theorem stripSpaces_eq (l : List Nat) (h : ∀ b ∈ l, b ≠ 32) :
    stripSpaces l = l := by
  unfold stripSpaces
  rw [dropLeading32_eq l h]
  rw [dropLeading32_eq l.reverse (fun b hb => h b (List.mem_reverse.mp hb))]
  exact List.reverse_reverse l

theorem dropTrailingSlashes_eq (l : List Nat) (h : l.getLast? ≠ some 47) :
    dropTrailingSlashes l = l := by
  unfold dropTrailingSlashes
  cases hrev : l.reverse with
  | nil =>
    have : l = [] := by simpa using congrArg List.reverse hrev
    simp [this, dropLeading47]
  | cons a t =>
    have hl : l = t.reverse ++ [a] := by
      have := congrArg List.reverse hrev
      simpa using this
    have ha : a ≠ 47 := by
      intro hcontra
      apply h
      rw [hl, List.getLast?_concat, hcontra]
    rw [dropLeading47, if_neg ha, ← hrev, List.reverse_reverse]

theorem nti_digits (l r : List Nat) (hl : l ≠ []) (hd : ∀ b ∈ l, 48 ≤ b ∧ b ≤ 55) :
    nti (l ++ 0 :: r) = parseOctalDigits 0 l := by
  cases l with
  | nil => contradiction
  | cons a t =>
    have ha := hd a (by simp)
    have hne0 : ∀ b ∈ a :: t, b ≠ 0 := fun b hb => by have := hd b hb; omega
    have hne32 : ∀ b ∈ a :: t, b ≠ 32 := fun b hb => by have := hd b hb; omega
    have hnts : nts ((a :: t) ++ 0 :: r) = a :: t := nts_append_zero _ _ hne0
    rw [List.cons_append, nti]
    rw [if_neg (by omega), if_neg (by omega)]
    rw [← List.cons_append, hnts, stripSpaces_eq _ hne32]
    rw [if_neg (by simp)]

theorem nti_octalField (w n : Nat) (r : List Nat) (hw : 0 < w) (hn : n < 8 ^ w) :
    nti (octalBytes w n ++ 0 :: r) = some n := by
  rw [nti_digits (octalBytes w n) r (octalBytes_ne_nil w n hw) (octalBytes_bounds w n)]
  rw [parseOctal_octalBytes]
  simp [Nat.mod_eq_of_lt hn]

theorem nameField_length (name : List Nat) (h : name.length ≤ 100) :
    (nameField name).length = 100 := by
  simp [nameField]
  omega

theorem sizeField_length (size : Nat) : (sizeField size).length = 12 := by
  unfold sizeField
  rw [List.length_append, octalBytes_length]
  rfl

theorem ckField_length (ck : Nat) : (ckField ck).length = 8 := by
  unfold ckField
  rw [List.length_append, octalBytes_length]
  rfl

theorem hdrHead_length (name : List Nat) (size : Nat) (h : name.length ≤ 100) :
    (hdrHead name size).length = 148 := by
  unfold hdrHead
  rw [List.length_append, List.length_append, List.length_append,
    nameField_length name h, sizeField_length]
  rfl

theorem hdrTail_length (flag : Nat) : (hdrTail flag).length = 356 := by
  unfold hdrTail
  rw [List.length_cons, List.length_replicate]

theorem mkHeaderCk_length (name : List Nat) (size flag ck : Nat) (h : name.length ≤ 100) :
    (mkHeaderCk name size flag ck).length = 512 := by
  unfold mkHeaderCk
  rw [List.length_append, List.length_append, hdrHead_length name size h,
    ckField_length, hdrTail_length]

theorem mkHeaderCk_take148 (name : List Nat) (size flag ck : Nat) (h : name.length ≤ 100) :
    (mkHeaderCk name size flag ck).take 148 = hdrHead name size := by
  unfold mkHeaderCk
  rw [List.append_assoc, List.take_left' (hdrHead_length name size h)]

theorem mkHeaderCk_drop148 (name : List Nat) (size flag ck : Nat) (h : name.length ≤ 100) :
    (mkHeaderCk name size flag ck).drop 148 = ckField ck ++ hdrTail flag := by
  unfold mkHeaderCk
  rw [List.append_assoc, List.drop_left' (hdrHead_length name size h)]

theorem mkHeaderCk_drop156 (name : List Nat) (size flag ck : Nat) (h : name.length ≤ 100) :
    (mkHeaderCk name size flag ck).drop 156 = hdrTail flag := by
  have h8 : (156 : Nat) = 148 + 8 := rfl
  rw [h8, ← List.drop_drop, mkHeaderCk_drop148 name size flag ck h,
    List.drop_left' (ckField_length _)]

theorem mkHeaderCk_take100 (name : List Nat) (size flag ck : Nat) (h : name.length ≤ 100) :
    (mkHeaderCk name size flag ck).take 100 = nameField name := by
  unfold mkHeaderCk hdrHead
  simp only [List.append_assoc]
  rw [List.take_left' (nameField_length name h)]

theorem mkHeaderCk_drop124 (name : List Nat) (size flag ck : Nat) (h : name.length ≤ 100) :
    (mkHeaderCk name size flag ck).drop 124 =
      sizeField size ++ (List.replicate 12 0 ++ (ckField ck ++ hdrTail flag)) := by
  unfold mkHeaderCk hdrHead
  simp only [List.append_assoc]
  rw [← List.append_assoc (nameField name) (List.replicate 24 0)]
  rw [List.drop_left' (by rw [List.length_append, nameField_length name h]; rfl)]

theorem mkHeaderCk_drop345 (name : List Nat) (size flag ck : Nat) (h : name.length ≤ 100) :
    (mkHeaderCk name size flag ck).drop 345 = List.replicate 167 0 := by
  have h189 : (345 : Nat) = 156 + 189 := rfl
  rw [h189, ← List.drop_drop, mkHeaderCk_drop156 name size flag ck h]
  unfold hdrTail
  have h1 : (189 : Nat) = 1 + 188 := rfl
  rw [h1, ← List.drop_drop, List.drop_one, List.tail_cons, List.drop_replicate]

theorem calcChksum_mkHeaderCk (name : List Nat) (size flag ck : Nat) (h : name.length ≤ 100) :
    calcChksum (mkHeaderCk name size flag ck) =
      (hdrHead name size).sum + 256 + (hdrTail flag).sum := by
  unfold calcChksum
  rw [mkHeaderCk_take148 name size flag ck h, mkHeaderCk_drop156 name size flag ck h]

theorem listSumBound (l : List Nat) (k : Nat) (h : ∀ x ∈ l, x ≤ k) :
    l.sum ≤ l.length * k := by
  induction l with
  | nil => simp
  | cons a t ih =>
    have ha : a ≤ k := h a (by simp)
    have ht := ih (fun x hx => h x (by simp [hx]))
    simp only [List.sum_cons, List.length_cons]
    calc a + t.sum ≤ k + t.length * k := by omega
      _ = (t.length + 1) * k := by ring

theorem ckField_eq (ck : Nat) : ckField ck = octalBytes 6 ck ++ 0 :: [32] := rfl

theorem sizeField_eq (size : Nat) : sizeField size = octalBytes 11 size ++ 0 :: [] := rfl

theorem hdrTail_headD (flag : Nat) : (hdrTail flag).headD 0 = flag := rfl

theorem nts_append_replicate (l : List Nat) (k : Nat) (h : ∀ b ∈ l, b ≠ 0) :
    nts (l ++ List.replicate k 0) = l := by
  cases k with
  | zero => rw [List.replicate_zero, List.append_nil, nts_all_ne_zero l h]
  | succ k => rw [List.replicate_succ]; exact nts_append_zero l _ h

theorem nts_nameField (name : List Nat) (h : ∀ b ∈ name, 0 < b ∧ b < 256) :
    nts (nameField name) = name := by
  unfold nameField
  exact nts_append_replicate name _ (fun b hb => by have := h b hb; omega)

theorem sum_replicate_zero (k : Nat) : (List.replicate k (0 : Nat)).sum = 0 := by
  induction k with
  | zero => rfl
  | succ k ih => rw [List.replicate_succ, List.sum_cons, ih]

theorem hdrHead_sum_bound (name : List Nat) (size : Nat)
    (h100 : name.length ≤ 100) (hbytes : ∀ b ∈ name, 0 < b ∧ b < 256) :
    (hdrHead name size).sum ≤ 26105 := by
  have hns : name.sum ≤ 25500 := by
    have h1 := listSumBound name 255 (fun x hx => by have := hbytes x hx; omega)
    have h2 : name.length * 255 ≤ 100 * 255 := Nat.mul_le_mul_right 255 h100
    omega
  have hoct : (octalBytes 11 size).sum ≤ 605 := by
    have h1 := listSumBound (octalBytes 11 size) 55
      (fun x hx => (octalBytes_bounds 11 size x hx).2)
    rw [octalBytes_length] at h1
    omega
  unfold hdrHead nameField sizeField
  rw [List.sum_append, List.sum_append, List.sum_append, List.sum_append, List.sum_append]
  rw [sum_replicate_zero, sum_replicate_zero, sum_replicate_zero]
  simp only [List.sum_cons, List.sum_nil]
  omega

theorem hdrTail_sum (flag : Nat) : (hdrTail flag).sum = flag := by
  unfold hdrTail
  rw [List.sum_cons, sum_replicate_zero]
  omega

theorem mkHeaderCk_not_all_zero (name : List Nat) (size flag ck : Nat) :
    ¬((mkHeaderCk name size flag ck).all (· = 0) = true) := by
  intro hall
  have hd8 : size / 8 ^ 10 % 8 < 8 := Nat.mod_lt _ (by norm_num)
  have hd : size / 8 ^ 10 % 8 + 48 ∈ octalBytes 11 size := by
    rw [show (11 : Nat) = 10 + 1 from rfl, octalBytes]
    exact List.mem_cons_self _ _
  have hsf : size / 8 ^ 10 % 8 + 48 ∈ sizeField size :=
    List.mem_append_left _ hd
  have hhd : size / 8 ^ 10 % 8 + 48 ∈ hdrHead name size := by
    unfold hdrHead
    exact List.mem_append_left _ (List.mem_append_right _ hsf)
  have hmem : size / 8 ^ 10 % 8 + 48 ∈ mkHeaderCk name size flag ck := by
    unfold mkHeaderCk
    exact List.mem_append_left _ (List.mem_append_left _ hhd)
  have := List.all_eq_true.mp hall _ hmem
  simp at this

theorem frombuf_mkHeader (name : List Nat) (size flag : Nat)
    (h100 : name.length ≤ 100)
    (hbytes : ∀ b ∈ name, 0 < b ∧ b < 256)
    (hlast : name.getLast? ≠ some 47)
    (hsize : size < 8 ^ 11)
    (hflag : flag ≤ 55) :
    frombuf (mkHeader name size flag) = .ok ⟨name, size, flag⟩ := by
  unfold mkHeader
  have hck6 : (hdrHead name size).sum + 256 + (hdrTail flag).sum < 8 ^ 6 := by
    have h1 := hdrHead_sum_bound name size h100 hbytes
    have h2 := hdrTail_sum flag
    norm_num
    omega
  unfold frombuf
  rw [mkHeaderCk_length name size flag _ h100]
  rw [if_neg (by norm_num), if_neg (by norm_num)]
  rw [if_neg (mkHeaderCk_not_all_zero name size flag _)]
  rw [mkHeaderCk_drop148 name size flag _ h100,
    List.take_left' (ckField_length _), ckField_eq,
    nti_octalField 6 _ [32] (by norm_num) hck6]
  rw [calcChksum_mkHeaderCk name size flag _ h100]
  rw [mkHeaderCk_drop124 name size flag _ h100,
    List.take_left' (sizeField_length _), sizeField_eq,
    nti_octalField 11 size [] (by norm_num) hsize]
  rw [mkHeaderCk_take100 name size flag _ h100, nts_nameField name hbytes]
  rw [mkHeaderCk_drop156 name size flag _ h100, hdrTail_headD]
  rw [mkHeaderCk_drop345 name size flag _ h100, List.take_replicate,
    show (155 ⊓ 167 : Nat) = 155 from rfl, nts_replicate_zero]
  simp [dropTrailingSlashes_eq name hlast, hlast]

theorem mkHeader_length (name : List Nat) (size flag : Nat) (h : name.length ≤ 100) :
    (mkHeader name size flag).length = 512 := by
  unfold mkHeader
  exact mkHeaderCk_length name size flag _ h

theorem padTo512_length (l : List Nat) :
    (padTo512 l).length = 512 * ((l.length + 511) / 512) := by
  unfold padTo512
  rw [List.length_append, List.length_replicate]
  omega

set_option maxRecDepth 4096 in
theorem frombuf_zeroBlock : frombuf (List.replicate 512 0) = .eofHeader := by decide

theorem frombuf_nil : frombuf [] = .empty := rfl

theorem processLoop_nil (H : List Nat → List Nat) (delim : List Nat) (first : Bool)
    (c : Counters) :
    processLoop H delim [] first c =
      if first then .error .readError else .ok ([], c) := by
  rw [processLoop]
  rfl

theorem processLoop_zeroBlock (H : List Nat → List Nat) (delim s : List Nat) (first : Bool)
    (c : Counters) :
    processLoop H delim (List.replicate 512 0 ++ s) first c = processLoop H delim s false c := by
  have ht : (List.replicate 512 (0 : Nat) ++ s).take 512 = List.replicate 512 0 :=
    List.take_left' (List.length_replicate 512 0)
  have hd : (List.replicate 512 (0 : Nat) ++ s).drop 512 = s :=
    List.drop_left' (List.length_replicate 512 0)
  conv_lhs => rw [processLoop.eq_def]
  split
  all_goals rename_i h
  · rw [ht, frombuf_zeroBlock] at h; cases h
  · rw [ht, frombuf_zeroBlock] at h; cases h
  · rw [hd]
  · rw [ht, frombuf_zeroBlock] at h; cases h
  · rw [ht, frombuf_zeroBlock] at h; cases h

theorem processLoop_trailer (H : List Nat → List Nat) (delim : List Nat) (first : Bool)
    (c : Counters) :
    processLoop H delim (List.replicate 1024 0) first c = .ok ([], c) := by
  have h1 : (List.replicate 1024 (0 : Nat)) = List.replicate 512 0 ++ List.replicate 512 0 := by
    rw [← List.replicate_add]
  have h2 : (List.replicate 512 (0 : Nat)) = List.replicate 512 0 ++ [] := by
    rw [List.append_nil]
  rw [h1, processLoop_zeroBlock]
  conv_lhs => rw [h2]
  rw [processLoop_zeroBlock, processLoop_nil]
  rfl

theorem padTo512_take (p t : List Nat) : (padTo512 p ++ t).take p.length = p := by
  unfold padTo512
  rw [List.append_assoc]
  exact List.take_left' rfl

theorem supportedType_of_wf :
    ∀ f ∈ ([0, 48, 49, 50, 51, 52, 53, 54, 55] : List Nat), supportedType f = true := by
  decide

theorem flag_le_55_of_wf :
    ∀ f ∈ ([0, 48, 49, 50, 51, 52, 53, 54, 55] : List Nat), f ≤ 55 := by
  decide

theorem processLoop_encodeMember (H : List Nat → List Nat) (delim : List Nat) (m : Member)
    (t : List Nat) (first : Bool) (c : Counters) (hwf : memberWF m) :
    processLoop H delim (encodeMember m ++ t) first c =
      if regularFlag m.typeflag then
        match processLoop H delim t false
            ⟨c.files_seen + 1, c.bytes_seen + m.payload.length, c.files_skipped⟩ with
        | .error e => .error e
        | .ok r =>
          .ok (GetTriageLine H ⟨m.name, m.payload.length, m.typeflag⟩ m.payload
                :: delim :: r.1, r.2)
      else
        processLoop H delim t false ⟨c.files_seen, c.bytes_seen, c.files_skipped + 1⟩ := by
  obtain ⟨h100, hbytes, hlast, hsize, hflagmem, hnodata⟩ := hwf
  have hfb := frombuf_mkHeader m.name m.payload.length m.typeflag h100 hbytes hlast hsize
    (flag_le_55_of_wf _ hflagmem)
  have henc : encodeMember m ++ t =
      mkHeader m.name m.payload.length m.typeflag ++
        ((if regularFlag m.typeflag then padTo512 m.payload else []) ++ t) := by
    unfold encodeMember
    rw [List.append_assoc]
  have htake : (encodeMember m ++ t).take 512 = mkHeader m.name m.payload.length m.typeflag := by
    rw [henc]; exact List.take_left' (mkHeader_length _ _ _ h100)
  have hdrop : (encodeMember m ++ t).drop 512 =
      (if regularFlag m.typeflag then padTo512 m.payload else []) ++ t := by
    rw [henc]; exact List.drop_left' (mkHeader_length _ _ _ h100)
  conv_lhs => rw [processLoop.eq_def]
  split
  · rename_i h; rw [htake, hfb] at h; cases h
  · rename_i h; rw [htake, hfb] at h; cases h
  · rename_i h; rw [htake, hfb] at h; cases h
  · rename_i h; rw [htake, hfb] at h; cases h
  · rename_i ti h
    rw [htake, hfb] at h
    injection h with hti
    subst hti
    dsimp only [TarInfo.isreg]
    by_cases hr : regularFlag m.typeflag = true
    · rw [if_pos hr, if_pos hr]
      rw [hdrop, if_pos hr]
      rw [List.drop_left' (padTo512_length m.payload), padTo512_take]
    · rw [if_neg hr, if_neg hr]
      rw [if_pos (supportedType_of_wf _ hflagmem)]
      rw [hdrop, if_neg hr, List.nil_append]

theorem processLoop_encodeArchive (H : List Nat → List Nat) (delim : List Nat)
    (ms : List Member) (hwfall : ∀ m ∈ ms, memberWF m) :
    ∀ (first : Bool) (c : Counters),
    processLoop H delim (encodeArchive ms) first c =
      .ok (specRecords H delim ms,
        ⟨c.files_seen + countReg ms, c.bytes_seen + sumReg ms,
         c.files_skipped + countSkip ms⟩) := by
  induction ms with
  | nil =>
    intro first c
    unfold encodeArchive
    rw [List.map_nil, List.flatten_nil, List.nil_append, processLoop_trailer]
    unfold specRecords countReg sumReg countSkip
    simp
  | cons m rest ih =>
    intro first c
    have harch : encodeArchive (m :: rest) = encodeMember m ++ encodeArchive rest := by
      unfold encodeArchive
      rw [List.map_cons, List.flatten_cons, List.append_assoc]
    rw [harch, processLoop_encodeMember H delim m _ first c (hwfall m (by simp))]
    have hwfr : ∀ x ∈ rest, memberWF x := fun x hx => hwfall x (by simp [hx])
    by_cases hr : regularFlag m.typeflag = true
    · rw [if_pos hr, ih hwfr false _]
      dsimp only
      unfold specRecords countReg sumReg countSkip
      simp [List.filter_cons, hr]
      try omega
    · rw [if_neg hr, ih hwfr false _]
      have hrf : regularFlag m.typeflag = false := by
        cases hb : regularFlag m.typeflag
        · rfl
        · exact absurd hb hr
      unfold specRecords countReg sumReg countSkip
      simp [List.filter_cons, hrf]
      try omega

theorem ProcessTarPipe_encodeArchive (H : List Nat → List Nat) (delim : List Nat)
    (ms : List Member) (hwfall : ∀ m ∈ ms, memberWF m) :
    ProcessTarPipe H (encodeArchive ms) delim =
      .ok (specRecords H delim ms,
        ⟨countReg ms, sumReg ms, countSkip ms⟩,
        (if 0 < countSkip ms then [Diag.warnSkipped (countSkip ms)] else []) ++
          [Diag.summary (countReg ms) (sumReg ms)]) := by
  unfold ProcessTarPipe
  rw [processLoop_encodeArchive H delim ms hwfall true ⟨0, 0, 0⟩]
  simp

theorem tfNextRaw_zeroBlock (s : List Nat) (first : Bool) :
    tfNextRaw (List.replicate 512 0 ++ s) first = tfNextRaw s false := by
  have ht : (List.replicate 512 (0 : Nat) ++ s).take 512 = List.replicate 512 0 :=
    List.take_left' (List.length_replicate 512 0)
  have hd : (List.replicate 512 (0 : Nat) ++ s).drop 512 = s :=
    List.drop_left' (List.length_replicate 512 0)
  conv_lhs => rw [tfNextRaw.eq_def]
  split
  · rename_i h; rw [ht, frombuf_zeroBlock] at h; cases h
  · rename_i h; rw [ht, frombuf_zeroBlock] at h; cases h
  · rw [hd]
  · rename_i h; rw [ht, frombuf_zeroBlock] at h; cases h
  · rename_i h; rw [ht, frombuf_zeroBlock] at h; cases h

theorem teeReads_spec {σ : Type} (readFn : σ → Nat → List Nat × σ) :
    ∀ (ns : List Nat) (st : σ) (written : List Nat),
    (teeReads readFn (st, written) ns).1 = (innerReads readFn st ns).1 ∧
    (teeReads readFn (st, written) ns).2.2 =
      written ++ ((innerReads readFn st ns).1).flatten ∧
    (teeReads readFn (st, written) ns).2.1 = (innerReads readFn st ns).2 := by
  intro ns
  induction ns with
  | nil => intro st written; simp [teeReads, innerReads]
  | cons n ns ih =>
    intro st written
    obtain ⟨ih1, ih2, ih3⟩ := ih (readFn st n).2 (written ++ (readFn st n).1)
    unfold teeReads innerReads teeRead
    refine ⟨?_, ?_, ?_⟩
    · simp only [ih1]
    · simp only [ih2, List.flatten_cons, List.append_assoc]
    · simp only [ih3]

theorem specRecords_length (H : List Nat → List Nat) (delim : List Nat) (ms : List Member) :
    (specRecords H delim ms).length = 2 * countReg ms := by
  unfold specRecords countReg
  induction ms.filter (fun m => regularFlag m.typeflag) with
  | nil => simp
  | cons m rest ih => simp only [List.map_cons, List.flatten_cons, List.length_append, ih,
      List.length_cons]; simp; omega

theorem countSkip_pos_iff (ms : List Member) :
    0 < countSkip ms ↔ ∃ m ∈ ms, regularFlag m.typeflag = false := by
  unfold countSkip
  rw [List.length_pos]
  induction ms with
  | nil => simp
  | cons m rest ih =>
    rw [List.filter_cons]
    cases hm : regularFlag m.typeflag with
    | false =>
      rw [if_pos (by rfl)]
      constructor
      · intro _
        exact ⟨m, by simp, hm⟩
      · intro _
        exact List.cons_ne_nil _ _
    | true =>
      rw [if_neg (by simp)]
      rw [ih]
      constructor
      · intro ⟨x, hx, hpx⟩
        exact ⟨x, by simp [hx], hpx⟩
      · intro ⟨x, hx, hpx⟩
        rcases List.mem_cons.mp hx with rfl | hx2
        · rw [hm] at hpx; cases hpx
        · exact ⟨x, hx2, hpx⟩

/-- C1: For every regular-file member, GetTriageLine feeds the leading
min(512, size) bytes of the payload into both hash accumulators and every
remaining payload byte into only the full accumulator, so the returned first
digest is the digest of the leading 512 bytes (or of all bytes if fewer) and
the returned full digest is the digest of the entire content. -/
theorem C1_triage_digests (H : List Nat → List Nat) (ti : TarInfo) (payload : List Nat) :
    GetTriageLine H ti payload =
      decBytes ti.size ++ 9 :: H (payload.take 512) ++ 9 :: H payload ++ 9 :: ti.name :=
  getTriageLine_spec H ti payload

/-- C2: For every regular-file member of a well-formed archive, the emitted
record is exactly four tab-separated fields (decimal size, first-chunk
digest, full digest, name) with no trailing delimiter inside the record, and
ProcessTarPipe writes the configured delimiter immediately after each
record: the record sink's write calls are, in order, one record then one
delimiter per regular member. -/
theorem C2_record_format (H : List Nat → List Nat) (delim : List Nat) (ms : List Member)
    (hwf : ∀ m ∈ ms, memberWF m) :
    ∃ cnt diag, ProcessTarPipe H (encodeArchive ms) delim =
      .ok (((ms.filter (fun m => regularFlag m.typeflag)).map
          (fun m => [decBytes m.payload.length ++ 9 :: H (m.payload.take 512)
            ++ 9 :: H m.payload ++ 9 :: m.name, delim])).flatten,
        cnt, diag) := by
  have hrec : specRecords H delim ms =
      ((ms.filter (fun m => regularFlag m.typeflag)).map
        (fun m => [decBytes m.payload.length ++ 9 :: H (m.payload.take 512)
          ++ 9 :: H m.payload ++ 9 :: m.name, delim])).flatten := by
    unfold specRecords
    congr 1
    apply List.map_congr_left
    intro m hm
    rw [getTriageLine_spec]
  exact ⟨⟨countReg ms, sumReg ms, countSkip ms⟩,
    (if 0 < countSkip ms then [Diag.warnSkipped (countSkip ms)] else []) ++
      [Diag.summary (countReg ms) (sumReg ms)],
    by rw [ProcessTarPipe_encodeArchive H delim ms hwf, hrec]⟩

/-- Witness for C2 at a concrete two-member archive (one regular file, one
directory). -/
theorem C2_record_format_witness :
    (∀ m ∈ ([⟨[97], 48, [104, 105]⟩, ⟨[100], 53, []⟩] : List Member), memberWF m) ∧
    (∃ cnt diag,
      ProcessTarPipe (fun l => l)
          (encodeArchive [⟨[97], 48, [104, 105]⟩, ⟨[100], 53, []⟩]) [10] =
        .ok (((([⟨[97], 48, [104, 105]⟩, ⟨[100], 53, []⟩] : List Member).filter
            (fun m => regularFlag m.typeflag)).map
            (fun m => [decBytes m.payload.length ++ 9 :: (fun l => l) (m.payload.take 512)
              ++ 9 :: (fun l => l) m.payload ++ 9 :: m.name, [10]])).flatten,
          cnt, diag)) :=
  ⟨by decide, C2_record_format (fun l => l) [10] _ (by decide)⟩

/-- C3: For every well-formed archive, ProcessTarPipe emits exactly one
record (followed by its delimiter) per regular-file member, files_skipped
ends equal to the number of non-regular members, and bytes_seen ends equal
to the sum of the regular members' declared sizes. -/
theorem C3_member_accounting (H : List Nat → List Nat) (delim : List Nat) (ms : List Member)
    (hwf : ∀ m ∈ ms, memberWF m) :
    ∃ out diag,
      ProcessTarPipe H (encodeArchive ms) delim =
        .ok (out, ⟨countReg ms, sumReg ms, countSkip ms⟩, diag) ∧
      out.length = 2 * countReg ms :=
  ⟨specRecords H delim ms, _,
    ProcessTarPipe_encodeArchive H delim ms hwf, specRecords_length H delim ms⟩

/-- Witness for C3 at a concrete archive: two regular files and one
directory. -/
theorem C3_member_accounting_witness :
    (∀ m ∈ ([⟨[97], 48, [1, 2, 3]⟩, ⟨[100], 53, []⟩, ⟨[98], 48, [5]⟩] : List Member),
      memberWF m) ∧
    (∃ out diag,
      ProcessTarPipe (fun l => l)
          (encodeArchive [⟨[97], 48, [1, 2, 3]⟩, ⟨[100], 53, []⟩, ⟨[98], 48, [5]⟩]) [10] =
        .ok (out,
          ⟨countReg [⟨[97], 48, [1, 2, 3]⟩, ⟨[100], 53, []⟩, ⟨[98], 48, [5]⟩],
           sumReg [⟨[97], 48, [1, 2, 3]⟩, ⟨[100], 53, []⟩, ⟨[98], 48, [5]⟩],
           countSkip [⟨[97], 48, [1, 2, 3]⟩, ⟨[100], 53, []⟩, ⟨[98], 48, [5]⟩]⟩, diag) ∧
      out.length = 2 * countReg [⟨[97], 48, [1, 2, 3]⟩, ⟨[100], 53, []⟩, ⟨[98], 48, [5]⟩]) :=
  ⟨by decide, C3_member_accounting (fun l => l) [10] _ (by decide)⟩

/-- C4: For every member whose payload is shorter than 512 bytes, the
first-512 digest in its record equals the full digest; and end-to-end, an
archive with one zero-length regular file yields a record with size 0 and
both digests equal to the SHA-256 digest of the empty byte string. -/
theorem C4_short_payload_digests :
    (∀ (H : List Nat → List Nat) (ti : TarInfo) (payload : List Nat),
      payload.length < 512 →
      GetTriageLine H ti payload =
        decBytes ti.size ++ 9 :: H payload ++ 9 :: H payload ++ 9 :: ti.name) ∧
    ProcessTarPipe sha256hex (encodeArchive [⟨[122], 48, []⟩]) [10] =
      .ok ([decBytes 0 ++ 9 :: sha256hex [] ++ 9 :: sha256hex [] ++ 9 :: [122], [10]],
        ⟨1, 0, 0⟩, [Diag.summary 1 0]) := by
  constructor
  · intro H ti payload hlt
    rw [getTriageLine_spec, List.take_of_length_le (by omega)]
  · rw [ProcessTarPipe_encodeArchive sha256hex [10] _ (by decide)]
    simp [specRecords, countReg, sumReg, countSkip, getTriageLine_spec, regularFlag]

/-- Witness for C4's short-payload clause at a concrete 2-byte payload. -/
theorem C4_short_payload_digests_witness :
    (([7, 8] : List Nat).length < 512) ∧
    GetTriageLine (fun l => l) ⟨[110], 2, 48⟩ [7, 8] =
      decBytes 2 ++ 9 :: [7, 8] ++ 9 :: [7, 8] ++ 9 :: [110] :=
  ⟨by decide, C4_short_payload_digests.1 (fun l => l) ⟨[110], 2, 48⟩ [7, 8] (by decide)⟩


theorem ProcessTarPipe_zeroBlock_archive (H : List Nat → List Nat) (delim : List Nat)
    (ms : List Member) (hwfall : ∀ m ∈ ms, memberWF m) :
    ProcessTarPipe H (List.replicate 512 0 ++ encodeArchive ms) delim =
      .ok (specRecords H delim ms,
        ⟨countReg ms, sumReg ms, countSkip ms⟩,
        (if 0 < countSkip ms then [Diag.warnSkipped (countSkip ms)] else []) ++
          [Diag.summary (countReg ms) (sumReg ms)]) := by
  unfold ProcessTarPipe
  rw [processLoop_zeroBlock, processLoop_encodeArchive H delim ms hwfall false ⟨0, 0, 0⟩]
  simp

/-- C5 counterexample: a stream consisting of a single all-zero block
followed by a well-formed one-member archive.  The claim says the zero
block is taken as the end-of-archive sentinel and no members after it are
processed; the code (tarfile with ignore_zeros=True) instead skips the zero
block and processes the member: one record is emitted and files_seen ends
at 1. -/
theorem C5_zero_block_counterexample :
    ProcessTarPipe (fun l => l)
        (List.replicate 512 0 ++
          encodeArchive [⟨[97, 46, 116, 120, 116], 48, [104, 101, 108, 108, 111]⟩]) [10] =
      .ok ([decBytes 5 ++ 9 :: [104, 101, 108, 108, 111] ++ 9 :: [104, 101, 108, 108, 111]
            ++ 9 :: [97, 46, 116, 120, 116], [10]],
        ⟨1, 5, 0⟩, [Diag.summary 1 5]) := by
  rw [ProcessTarPipe_zeroBlock_archive (fun l => l) [10]
    [⟨[97, 46, 116, 120, 116], 48, [104, 101, 108, 108, 111]⟩] (by decide)]
  simp [specRecords, countReg, sumReg, countSkip, getTriageLine_spec, regularFlag]

/-- C5 (amended): when a single all-zero block appears where a header is
expected, the reader does not terminate there: with ignore_zeros=True the
zero block is skipped and reading continues with the block that follows,
both in header reading (tfNextRaw) and in the member loop (processLoop);
the member sequence terminates only at end of input. -/
theorem C5_zero_block_skipped (s : List Nat) (first : Bool) :
    tfNextRaw (List.replicate 512 0 ++ s) first = tfNextRaw s false ∧
    ∀ (H : List Nat → List Nat) (delim : List Nat) (c : Counters),
      processLoop H delim (List.replicate 512 0 ++ s) first c =
        processLoop H delim s false c :=
  ⟨tfNextRaw_zeroBlock s first,
   fun H delim c => processLoop_zeroBlock H delim s first c⟩

/-- C6: For an archive containing exactly one regular file a.txt with
content "hello" (5 bytes), the record sink receives exactly one record
(size 5, first digest = full digest = the SHA-256 of "hello", name a.txt)
followed by the configured delimiter (newline or NUL) and nothing else, and
the SHA-256 digest in that record is the concrete hex digest of "hello". -/
theorem C6_end_to_end_hello :
    (ProcessTarPipe sha256hex
        (encodeArchive [⟨[97, 46, 116, 120, 116], 48, [104, 101, 108, 108, 111]⟩]) [10] =
      .ok ([decBytes 5 ++ 9 :: sha256hex [104, 101, 108, 108, 111]
              ++ 9 :: sha256hex [104, 101, 108, 108, 111] ++ 9 :: [97, 46, 116, 120, 116],
            [10]],
        ⟨1, 5, 0⟩, [Diag.summary 1 5])) ∧
    (ProcessTarPipe sha256hex
        (encodeArchive [⟨[97, 46, 116, 120, 116], 48, [104, 101, 108, 108, 111]⟩]) [0] =
      .ok ([decBytes 5 ++ 9 :: sha256hex [104, 101, 108, 108, 111]
              ++ 9 :: sha256hex [104, 101, 108, 108, 111] ++ 9 :: [97, 46, 116, 120, 116],
            [0]],
        ⟨1, 5, 0⟩, [Diag.summary 1 5])) ∧
    sha256hex [104, 101, 108, 108, 111] =
      [50, 99, 102, 50, 52, 100, 98, 97, 53, 102, 98, 48, 97, 51, 48, 101, 50, 54,
       101, 56, 51, 98, 50, 97, 99, 53, 98, 57, 101, 50, 57, 101, 49, 98, 49, 54,
       49, 101, 53, 99, 49, 102, 97, 55, 52, 50, 53, 101, 55, 51, 48, 52, 51, 51,
       54, 50, 57, 51, 56, 98, 57, 56, 50, 52] := by
  refine ⟨?_, ?_, by decide⟩
  · rw [ProcessTarPipe_encodeArchive sha256hex [10]
      [⟨[97, 46, 116, 120, 116], 48, [104, 101, 108, 108, 111]⟩] (by decide)]
    simp [specRecords, countReg, sumReg, countSkip, getTriageLine_spec, regularFlag]
  · rw [ProcessTarPipe_encodeArchive sha256hex [0]
      [⟨[97, 46, 116, 120, 116], 48, [104, 101, 108, 108, 111]⟩] (by decide)]
    simp [specRecords, countReg, sumReg, countSkip, getTriageLine_spec, regularFlag]

/-- C7: With tee enabled, every byte returned by a read from the input
transport is also written, unmodified and in the same order, to the
secondary output sink: a single IOTee read returns exactly the bytes the
inner transport's read returns and appends those same bytes to target_fd,
and over any sequence of reads the teed transport returns the same chunks
as the bare inner transport while target_fd accumulates exactly their
concatenation in order. -/
theorem C7_tee_transparent (σ : Type) (readFn : σ → Nat → List Nat × σ) (st : σ)
    (written : List Nat) (n : Nat) (ns : List Nat) :
    (teeRead readFn (st, written) n).1 = (readFn st n).1 ∧
    (teeRead readFn (st, written) n).2.2 = written ++ (readFn st n).1 ∧
    (teeReads readFn (st, written) ns).1 = (innerReads readFn st ns).1 ∧
    (teeReads readFn (st, written) ns).2.2 =
      written ++ ((innerReads readFn st ns).1).flatten :=
  ⟨rfl, rfl, (teeReads_spec readFn ns st written).1, (teeReads_spec readFn ns st written).2.1⟩

/-- C8: If the configured output path already exists and neither overwrite
nor append mode was chosen, the run fails with FileExistsError, and the
result does not depend on the input stream at all (no byte of input is
consumed before the failure). -/
theorem C8_sink_conflict (H : List Nat → List Nat) (a : Args) (content input : List Nat)
    (how : a.overwrite_sum = false) (hap : a.append = false) :
    MainRunFile H a (some content) input = .error .fileExists ∧
    ∀ input2 : List Nat,
      MainRunFile H a (some content) input = MainRunFile H a (some content) input2 := by
  constructor
  · simp [MainRunFile, how, hap]
  · intro input2
    simp [MainRunFile, how, hap]

/-- Witness for C8 at a concrete existing output file. -/
theorem C8_sink_conflict_witness :
    ((⟨false, false, false, false⟩ : Args).overwrite_sum = false) ∧
    ((⟨false, false, false, false⟩ : Args).append = false) ∧
    MainRunFile (fun l => l) ⟨false, false, false, false⟩ (some [1, 2]) [3] =
      .error .fileExists :=
  ⟨rfl, rfl, (C8_sink_conflict (fun l => l) ⟨false, false, false, false⟩ [1, 2] [3] rfl rfl).1⟩

/-- C9: Running the pipeline twice over byte-identical input with append
mode leaves the output file equal to the concatenation of two single-run
outputs; with overwrite mode the file ends equal to a single run's
output. -/
theorem C9_rerun_modes (H : List Nat → List Nat) (null : Bool) (input out : List Nat) :
    (MainRunFile H ⟨false, null, false, true⟩ none input = .ok out →
      MainRunTwice H ⟨false, null, false, true⟩ none input = .ok (out ++ out)) ∧
    (MainRunFile H ⟨false, null, true, false⟩ none input = .ok out →
      MainRunTwice H ⟨false, null, true, false⟩ none input = .ok out) := by
  constructor
  · intro hfirst
    unfold MainRunTwice
    rw [hfirst]
    unfold MainRunFile at hfirst ⊢
    cases hP : ProcessTarPipe H input (delimOf null) with
    | error e =>
      simp [hP] at hfirst ⊢
      simp [← hfirst]
    | ok r =>
      simp [hP] at hfirst ⊢
      simp [← hfirst]
  · intro hfirst
    unfold MainRunTwice
    rw [hfirst]
    unfold MainRunFile at hfirst ⊢
    cases hP : ProcessTarPipe H input (delimOf null) with
    | error e =>
      simp [hP] at hfirst ⊢
      simp [← hfirst]
    | ok r =>
      simp [hP] at hfirst ⊢
      simp [← hfirst]


theorem MainRunFile_none_ok (H : List Nat → List Nat) (a : Args) (input : List Nat)
    (out : List (List Nat)) (cnt : Counters) (diag : List Diag)
    (h : ProcessTarPipe H input (delimOf a.null) = .ok (out, cnt, diag)) :
    MainRunFile H a none input = .ok out.flatten := by
  unfold MainRunFile
  dsimp only
  rw [h]
  rfl

/-- Witness for C9 at a concrete one-member archive (record sink output
49 9 104 9 104 9 97 10 for a 1-byte file named 'a'). -/
theorem C9_rerun_modes_witness :
    (MainRunFile (fun l => l) ⟨false, false, false, true⟩ none
        (encodeArchive [⟨[97], 48, [104]⟩]) = .ok [49, 9, 104, 9, 104, 9, 97, 10]) ∧
    MainRunTwice (fun l => l) ⟨false, false, false, true⟩ none
        (encodeArchive [⟨[97], 48, [104]⟩]) =
      .ok ([49, 9, 104, 9, 104, 9, 97, 10] ++ [49, 9, 104, 9, 104, 9, 97, 10]) := by
  have hP := ProcessTarPipe_encodeArchive (fun l => l) (delimOf false)
    [⟨[97], 48, [104]⟩] (by decide)
  have h1 : MainRunFile (fun l => l) ⟨false, false, false, true⟩ none
      (encodeArchive [⟨[97], 48, [104]⟩]) =
      .ok (specRecords (fun l => l) (delimOf false) [⟨[97], 48, [104]⟩]).flatten :=
    MainRunFile_none_ok (fun l => l) ⟨false, false, false, true⟩ _ _ _ _ hP
  have h2 : (specRecords (fun l => l) (delimOf false) [⟨[97], 48, [104]⟩]).flatten =
      [49, 9, 104, 9, 104, 9, 97, 10] := by
    simp [specRecords, getTriageLine_spec]
    decide
  rw [h2] at h1
  exact ⟨h1,
    (C9_rerun_modes (fun l => l) false (encodeArchive [⟨[97], 48, [104]⟩])
      [49, 9, 104, 9, 104, 9, 97, 10]).1 h1⟩

/-- C10 counterexample: on a zero-byte input stream, tarfile raises
ReadError at open (empty file), so ProcessTarPipe aborts before writing any
diagnostics: no end-of-run summary is produced, contradicting the claim
that the summary is written for every input. -/
theorem C10_empty_input_counterexample :
    ProcessTarPipe (fun l => l) [] [10] = .error .readError := by
  unfold ProcessTarPipe
  rw [processLoop_nil]
  rfl

/-- C10 (amended): for every well-formed archive (including the empty
archive), ProcessTarPipe writes the Warning line if and only if
files_skipped ended positive, equivalently iff the archive contains a
non-regular member, and always writes the end-of-run summary carrying
files_seen and bytes_seen; an empty or truncated-at-start stream instead
aborts with ReadError before any diagnostics. -/
theorem C10_diagnostics (H : List Nat → List Nat) (delim : List Nat) (ms : List Member)
    (hwf : ∀ m ∈ ms, memberWF m) :
    ∃ out d,
      ProcessTarPipe H (encodeArchive ms) delim =
        .ok (out, ⟨countReg ms, sumReg ms, countSkip ms⟩, d) ∧
      Diag.summary (countReg ms) (sumReg ms) ∈ d ∧
      ((∃ n, Diag.warnSkipped n ∈ d) ↔ 0 < countSkip ms) ∧
      ((∃ n, Diag.warnSkipped n ∈ d) ↔ ∃ m ∈ ms, regularFlag m.typeflag = false) := by
  have hwarn : (∃ n, Diag.warnSkipped n ∈
      ((if 0 < countSkip ms then [Diag.warnSkipped (countSkip ms)] else []) ++
        [Diag.summary (countReg ms) (sumReg ms)])) ↔ 0 < countSkip ms := by
    constructor
    · rintro ⟨n, hn⟩
      by_contra hz
      rw [if_neg hz] at hn
      simp at hn
    · intro hz
      exact ⟨countSkip ms, by rw [if_pos hz]; simp⟩
  refine ⟨specRecords H delim ms,
    (if 0 < countSkip ms then [Diag.warnSkipped (countSkip ms)] else []) ++
      [Diag.summary (countReg ms) (sumReg ms)],
    ProcessTarPipe_encodeArchive H delim ms hwf,
    List.mem_append_right _ (List.mem_singleton.mpr rfl),
    hwarn,
    hwarn.trans (countSkip_pos_iff ms)⟩

/-- Witness for C10 at a concrete archive holding one directory member. -/
theorem C10_diagnostics_witness :
    (∀ m ∈ ([⟨[100], 53, []⟩] : List Member), memberWF m) ∧
    (∃ out d,
      ProcessTarPipe (fun l => l) (encodeArchive [⟨[100], 53, []⟩]) [10] =
        .ok (out,
          ⟨countReg [⟨[100], 53, []⟩], sumReg [⟨[100], 53, []⟩],
           countSkip [⟨[100], 53, []⟩]⟩, d) ∧
      Diag.summary (countReg [⟨[100], 53, []⟩]) (sumReg [⟨[100], 53, []⟩]) ∈ d ∧
      ((∃ n, Diag.warnSkipped n ∈ d) ↔ 0 < countSkip [⟨[100], 53, []⟩]) ∧
      ((∃ n, Diag.warnSkipped n ∈ d) ↔
        ∃ m ∈ ([⟨[100], 53, []⟩] : List Member), regularFlag m.typeflag = false)) :=
  ⟨by decide, C10_diagnostics (fun l => l) [10] [⟨[100], 53, []⟩] (by decide)⟩
